import Mathlib

/-!
Verification of the monitor-server collector service (`src/main.py`).

The service keeps two tables: `metricas` (append-only metric samples) and
`comandos` (one current command per client, upsert semantics).  We embed the
database state and the four request handlers (`collect`, `get_command`,
`set_command`, `metrics`) as pure Lean functions.  External effects are made
explicit parameters:

* `parse : String → Option Int` models `datetime.fromisoformat` (returning
  `none` on a parse failure);
* `now : Int` models the current server time (`datetime.utcnow()` /
  SQL `NOW()`);
* timestamps are modelled as integers — only their ordering matters;
* `cpu` / `ram` values are modelled as rationals (they are pass-through data,
  never computed with).

Fallible handlers return an `Except` value together with the post-state;
raising an `HTTPException` before touching the database leaves the state
unchanged, exactly as in the source.
-/

namespace MonitorServer

/-- Embeds the pydantic `Payload` model (`src/main.py` lines 18–22):
`client_id : str`, `timestamp : str`, `cpu : float`, `ram : float`.
Note that pydantic's `str` places no non-emptiness restriction on
`client_id`. -/
structure Payload where
  client_id : String
  timestamp : String
  cpu : Rat
  ram : Rat
deriving DecidableEq, Repr

/-- A row of the `metricas` table: `id SERIAL`, `client_id TEXT`,
`ts TIMESTAMP`, `cpu REAL`, `ram REAL`. -/
structure MetricRow where
  id : Nat
  client_id : String
  ts : Int
  cpu : Rat
  ram : Rat
deriving DecidableEq, Repr

/-- A row of the `comandos` table: `client_id TEXT PRIMARY KEY`,
`command TEXT`, `updated_at TIMESTAMP`. -/
structure CommandRow where
  client_id : String
  command : String
  updated_at : Int
deriving DecidableEq, Repr

/-- The database state: the two tables plus the next `SERIAL` id for
`metricas`.  Lists are kept in insertion order. -/
structure DB where
  metricas : List MetricRow
  comandos : List CommandRow
  next_id : Nat
deriving DecidableEq, Repr

/-- The state right after `init_db`: both tables empty; Postgres `SERIAL`
starts at 1. -/
def DB.empty : DB := ⟨[], [], 1⟩

/-- An `HTTPException(code, detail)`. -/
structure HTTPError where
  code : Nat
  detail : String
deriving DecidableEq, Repr

/-- Response of `POST /api/collect`: `{"status": "ok"}`. -/
structure CollectResp where
  status : String
deriving DecidableEq, Repr

/-- Response of `GET /api/command/{client_id}`: either the stored row's
`command`/`updated_at`, or the default `{"command": "stop"}` with no
`updated_at`. -/
structure CommandReadResp where
  command : String
  updated_at : Option Int
deriving DecidableEq, Repr

/-- Response of a successful `POST /api/command/{client_id}`:
`{"status": "ok", "client_id": ..., "command": ...}`. -/
structure SetCommandResp where
  status : String
  client_id : String
  command : String
deriving DecidableEq, Repr

/-- `listStartsWith n h` is true when `n` is an initial segment of `h`. -/
def listStartsWith : List Char → List Char → Bool
  | [], _ => true
  | _ :: _, [] => false
  | n :: ns, h :: hs => n == h && listStartsWith ns hs

/-- `listContainsSub n h` is true when `n` occurs contiguously in `h`;
models Python's `n in h` substring test on the underlying characters. -/
def listContainsSub (needle : List Char) : List Char → Bool
  | [] => listStartsWith needle []
  | c :: cs => listStartsWith needle (c :: cs) || listContainsSub needle cs

/-- Python's `needle in hay` on strings. -/
def strContains (hay needle : String) : Bool :=
  listContainsSub needle.toList hay.toList

/-- The authorization test of `set_command` (`src/main.py` line 89):
`not (not authorization or API_KEY not in authorization)`, i.e. the header
is present, truthy (non-empty), and contains the configured key as a
substring. -/
def authorized (api_key : String) (authorization : Option String) : Bool :=
  match authorization with
  | none => false
  | some a => !(a == "") && strContains a api_key

/-- `POST /api/collect` (`src/main.py` lines 55–71).  Parses the payload's
timestamp, substituting `now` on failure, appends one row to `metricas`
with the next serial id, and returns `{"status": "ok"}`.  The
`authorization` header is received but never inspected. -/
def collect (parse : String → Option Int) (now : Int) (db : DB)
    (payload : Payload) (authorization : Option String) : DB × CollectResp :=
  let ts := (parse payload.timestamp).getD now
  ({ db with
      metricas :=
        db.metricas ++ [⟨db.next_id, payload.client_id, ts, payload.cpu, payload.ram⟩],
      next_id := db.next_id + 1 },
   ⟨"ok"⟩)

/-- `GET /api/command/{client_id}` (`src/main.py` lines 74–84).  A pure
read: selects the `comandos` row for `client_id` (at most one exists, by
the primary key) and returns its fields, or the default
`{"command": "stop"}` when no row exists.  It never writes. -/
def get_command (db : DB) (client_id : String) : CommandReadResp :=
  match db.comandos.find? (fun r => r.client_id == client_id) with
  | none => ⟨"stop", none⟩
  | some r => ⟨r.command, some r.updated_at⟩

/-- `INSERT ... ON CONFLICT (client_id) DO UPDATE` on the `comandos`
table: replace the (unique) row with this `client_id` if present,
otherwise append the new row. -/
def upsertList : List CommandRow → CommandRow → List CommandRow
  | [], x => [x]
  | r :: rs, x =>
      if r.client_id == x.client_id then x :: rs else r :: upsertList rs x

/-- `POST /api/command/{client_id}` (`src/main.py` lines 87–103).
Raises 401 before touching the database when the authorization check
fails, 400 when the command is neither `"start"` nor `"stop"`, and
otherwise upserts the `comandos` row with `updated_at = now`. -/
def set_command (api_key : String) (now : Int) (db : DB) (client_id : String)
    (command : String) (authorization : Option String) :
    DB × Except HTTPError SetCommandResp :=
  if !(authorized api_key authorization) then
    (db, .error ⟨401, "Unauthorized"⟩)
  else if !(command == "start" || command == "stop") then
    (db, .error ⟨400, "Invalid command"⟩)
  else
    ({ db with comandos := upsertList db.comandos ⟨client_id, command, now⟩ },
     .ok ⟨"ok", client_id, command⟩)

/-- The `ORDER BY ts DESC` relation used by the metrics query. -/
def tsDescRel (a b : MetricRow) : Prop := b.ts ≤ a.ts

instance : DecidableRel tsDescRel := fun a b => inferInstanceAs (Decidable (b.ts ≤ a.ts))

instance : IsTotal MetricRow tsDescRel := ⟨fun a b => le_total b.ts a.ts⟩

instance : IsTrans MetricRow tsDescRel := ⟨fun _ _ _ h1 h2 => le_trans h2 h1⟩

/-- `GET /api/metrics/{client_id}?limit=N` (`src/main.py` lines 106–121):
select the rows for `client_id`, order by `ts` descending, apply `LIMIT`,
then reverse in Python before returning. -/
def metrics (db : DB) (client_id : String) (limit : Nat) : List MetricRow :=
  ((List.insertionSort tsDescRel
      (db.metricas.filter (fun r => r.client_id == client_id))).take limit).reverse

/-- The states reachable from the freshly initialised database by any
sequence of requests (only `collect` and `set_command` write). -/
inductive Reachable (api_key : String) : DB → Prop
  | init : Reachable api_key DB.empty
  | step_collect (parse : String → Option Int) (now : Int) (db : DB)
      (payload : Payload) (authorization : Option String) :
      Reachable api_key db →
      Reachable api_key (collect parse now db payload authorization).1
  | step_set (now : Int) (db : DB) (client_id command : String)
      (authorization : Option String) :
      Reachable api_key db →
      Reachable api_key
        (set_command api_key now db client_id command authorization).1

/-- The `comandos` table respects its primary key: no two rows share a
`client_id`. -/
def DistinctClients (l : List CommandRow) : Prop :=
  l.Pairwise (fun r s => r.client_id ≠ s.client_id)

lemma mem_upsertList {l : List CommandRow} {x y : CommandRow}
    (h : y ∈ upsertList l x) : y = x ∨ y ∈ l := by
  induction l with
  | nil => simpa [upsertList] using h
  | cons r rs ih =>
    rw [upsertList] at h
    split at h
    · rcases List.mem_cons.mp h with h1 | h1
      · exact Or.inl h1
      · exact Or.inr (List.mem_cons_of_mem _ h1)
    · rcases List.mem_cons.mp h with h1 | h1
      · exact Or.inr (h1 ▸ List.mem_cons_self _ _)
      · rcases ih h1 with h2 | h2
        · exact Or.inl h2
        · exact Or.inr (List.mem_cons_of_mem _ h2)

lemma distinct_upsertList {l : List CommandRow} (x : CommandRow)
    (h : DistinctClients l) : DistinctClients (upsertList l x) := by
  induction l with
  | nil => simp [upsertList, DistinctClients]
  | cons r rs ih =>
    rw [DistinctClients, List.pairwise_cons] at h
    obtain ⟨hr, hrs⟩ := h
    rw [upsertList]
    split
    · rename_i heq
      rw [DistinctClients, List.pairwise_cons]
      refine ⟨fun s hs => ?_, hrs⟩
      have : r.client_id = x.client_id := by simpa using heq
      exact this ▸ hr s hs
    · rename_i hne
      rw [DistinctClients, List.pairwise_cons]
      refine ⟨fun s hs => ?_, ih hrs⟩
      rcases mem_upsertList hs with h1 | h1
      · subst h1
        simpa using hne
      · exact hr s h1

lemma find?_upsertList (l : List CommandRow) (x : CommandRow) :
    (upsertList l x).find? (fun r => r.client_id == x.client_id) = some x := by
  induction l with
  | nil => simp [upsertList]
  | cons r rs ih =>
    rw [upsertList]
    split
    · simp [List.find?]
    · rename_i hne
      rw [List.find?]
      simp only [Bool.not_eq_true] at hne
      rw [hne]
      exact ih

lemma countP_upsertList (l : List CommandRow) (x : CommandRow)
    (h : DistinctClients l) :
    (upsertList l x).countP (fun r => r.client_id == x.client_id) = 1 := by
  induction l with
  | nil => simp [upsertList]
  | cons r rs ih =>
    rw [DistinctClients, List.pairwise_cons] at h
    obtain ⟨hr, hrs⟩ := h
    rw [upsertList]
    split
    · rename_i heq
      have hx : r.client_id = x.client_id := by simpa using heq
      have hzero : rs.countP (fun s => s.client_id == x.client_id) = 0 := by
        rw [List.countP_eq_zero]
        intro s hs
        have hne := hr s hs
        intro hsx
        exact hne (hx.trans (beq_iff_eq.mp hsx).symm)
      rw [List.countP_cons]
      simp [hzero]
    · rename_i hne
      rw [List.countP_cons]
      have : (r.client_id == x.client_id) = false := by
        simpa using hne
      simp [this, ih hrs]

lemma set_command_state (api_key : String) (now : Int) (db : DB)
    (client_id command : String) (authorization : Option String) :
    (set_command api_key now db client_id command authorization).1 = db ∨
    (set_command api_key now db client_id command authorization).1 =
      { db with comandos := upsertList db.comandos ⟨client_id, command, now⟩ } := by
  unfold set_command
  split_ifs
  · exact Or.inl rfl
  · exact Or.inl rfl
  · exact Or.inr rfl

/-- Claim C10: the ingestion endpoint never inspects the `Authorization`
header it accepts: for any two header values (including absence) the
response and the resulting store are identical (two-run noninterference). -/
theorem collect_auth_noninterference (parse : String → Option Int) (now : Int)
    (db : DB) (payload : Payload) (a1 a2 : Option String) :
    collect parse now db payload a1 = collect parse now db payload a2 := rfl

/-- Claim C6: when the payload's timestamp fails to parse, ingestion does
not reject the request: it stores the row with the current server time as
timestamp and returns the success acknowledgment. -/
theorem collect_bad_timestamp (parse : String → Option Int) (now : Int)
    (db : DB) (payload : Payload) (authorization : Option String)
    (h : parse payload.timestamp = none) :
    (collect parse now db payload authorization).1.metricas =
      db.metricas ++
        [⟨db.next_id, payload.client_id, now, payload.cpu, payload.ram⟩] ∧
    (collect parse now db payload authorization).2 = ⟨"ok"⟩ ∧
    (collect parse now db payload authorization).1.comandos = db.comandos := by
  refine ⟨?_, rfl, rfl⟩
  simp [collect, h]

theorem collect_bad_timestamp_witness :
    (collect (fun _ => none) 7 DB.empty ⟨"pc-1", "not-a-date", 10, 20⟩ none).1.metricas
        = DB.empty.metricas ++ [⟨DB.empty.next_id, "pc-1", 7, 10, 20⟩] ∧
    (collect (fun _ => none) 7 DB.empty ⟨"pc-1", "not-a-date", 10, 20⟩ none).2 = ⟨"ok"⟩ ∧
    (collect (fun _ => none) 7 DB.empty ⟨"pc-1", "not-a-date", 10, 20⟩ none).1.comandos
        = DB.empty.comandos :=
  collect_bad_timestamp (fun _ => none) 7 DB.empty ⟨"pc-1", "not-a-date", 10, 20⟩ none rfl

/-- Claim C7: every ingestion call appends exactly one row: the previous
rows are unchanged (append-only), the count for the payload's client
increases by exactly one, and a repeated identical submission adds yet
another row (no deduplication). -/
theorem collect_appends_one_row (parse : String → Option Int) (now : Int)
    (db : DB) (payload : Payload) (authorization : Option String) :
    (collect parse now db payload authorization).1.metricas =
      db.metricas ++
        [⟨db.next_id, payload.client_id, (parse payload.timestamp).getD now,
          payload.cpu, payload.ram⟩] ∧
    (collect parse now db payload authorization).1.metricas.countP
        (fun r => r.client_id == payload.client_id) =
      db.metricas.countP (fun r => r.client_id == payload.client_id) + 1 ∧
    (collect parse now
        (collect parse now db payload authorization).1 payload
        authorization).1.metricas.length = db.metricas.length + 2 := by
  refine ⟨rfl, ?_, ?_⟩
  · simp [collect]
  · simp [collect]

/-- Claim C9 (counterexample): a payload with an empty `client_id` is
accepted and stored verbatim — pydantic's `str` does not require
non-emptiness, and `collect` performs no check, so the stored row's
`client_id` is empty. -/
theorem collect_empty_client_id_counterexample :
    (collect (fun _ => none) 0 DB.empty ⟨"", "2024-01-01", 10, 20⟩ none).2 = ⟨"ok"⟩ ∧
    (collect (fun _ => none) 0 DB.empty ⟨"", "2024-01-01", 10, 20⟩ none).1.metricas
        = [⟨1, "", 0, 10, 20⟩] ∧
    ¬ (∀ r ∈ (collect (fun _ => none) 0 DB.empty
          ⟨"", "2024-01-01", 10, 20⟩ none).1.metricas, r.client_id ≠ "") := by
  refine ⟨rfl, rfl, fun h => ?_⟩
  exact h ⟨1, "", 0, 10, 20⟩ (by simp [collect, DB.empty]) rfl

/-- Claim C9 (amended): the ingestion endpoint accepts every payload,
empty `client_id` included, and stores the payload's `client_id`
verbatim in the new row. -/
theorem collect_stores_client_id_verbatim (parse : String → Option Int)
    (now : Int) (db : DB) (payload : Payload) (authorization : Option String) :
    (collect parse now db payload authorization).2 = ⟨"ok"⟩ ∧
    (collect parse now db payload authorization).1.metricas =
      db.metricas ++
        [⟨db.next_id, payload.client_id, (parse payload.timestamp).getD now,
          payload.cpu, payload.ram⟩] :=
  ⟨rfl, rfl⟩

/-- Claim C5: a command read for a `client_id` with no `comandos` row
returns the default `{command := "stop"}` with no `updated_at`.  The read
is pure by construction: `get_command` consumes the state and returns
only a response, mirroring the handler, which only issues a `SELECT`. -/
theorem get_command_default (db : DB) (client_id : String)
    (h : ∀ r ∈ db.comandos, r.client_id ≠ client_id) :
    get_command db client_id = ⟨"stop", none⟩ := by
  have hfind : db.comandos.find? (fun r => r.client_id == client_id) = none := by
    rw [List.find?_eq_none]
    intro r hr
    simpa using h r hr
  simp [get_command, hfind]

theorem get_command_default_witness :
    get_command ⟨[], [⟨"other", "start", 5⟩], 1⟩ "pc-1" = ⟨"stop", none⟩ :=
  get_command_default ⟨[], [⟨"other", "start", 5⟩], 1⟩ "pc-1" (by decide)

/-- Claim C2: a successful authenticated command write of `"start"`
followed by a command read for the same `client_id` observes
`command = "start"`. -/
theorem read_after_write_start (api_key : String) (now : Int) (db : DB)
    (client_id : String) (authorization : Option String)
    (h : authorized api_key authorization = true) :
    (set_command api_key now db client_id "start" authorization).2 =
      .ok ⟨"ok", client_id, "start"⟩ ∧
    get_command (set_command api_key now db client_id "start" authorization).1
        client_id = ⟨"start", some now⟩ := by
  have hstate :
      (set_command api_key now db client_id "start" authorization).1 =
        { db with comandos := upsertList db.comandos ⟨client_id, "start", now⟩ } := by
    simp [set_command, h]
  refine ⟨by simp [set_command, h], ?_⟩
  rw [hstate, get_command]
  have := find?_upsertList db.comandos ⟨client_id, "start", now⟩
  simp only at this
  rw [this]

theorem read_after_write_start_witness :
    (set_command "k" 3 DB.empty "pc-1" "start" (some "Bearer k")).2 =
      .ok ⟨"ok", "pc-1", "start"⟩ ∧
    get_command (set_command "k" 3 DB.empty "pc-1" "start" (some "Bearer k")).1
        "pc-1" = ⟨"start", some 3⟩ :=
  read_after_write_start "k" 3 DB.empty "pc-1" (some "Bearer k") (by decide)

/-- Claim C3: a command write whose `Authorization` header is absent or
does not contain the configured key as a substring fails with 401
Unauthorized and leaves the database state unchanged. -/
theorem set_command_unauthorized (api_key : String) (now : Int) (db : DB)
    (client_id command : String) (authorization : Option String)
    (h : authorization = none ∨
      ∃ a, authorization = some a ∧ strContains a api_key = false) :
    set_command api_key now db client_id command authorization =
      (db, .error ⟨401, "Unauthorized"⟩) := by
  rcases h with h | ⟨a, ha, hsub⟩
  · subst h
    simp [set_command, authorized]
  · subst ha
    simp [set_command, authorized, hsub]

theorem set_command_unauthorized_witness :
    set_command "minha-chave-teste" 0 ⟨[], [⟨"pc-1", "start", 1⟩], 1⟩ "pc-1"
        "stop" (some "Bearer wrong") =
      (⟨[], [⟨"pc-1", "start", 1⟩], 1⟩, .error ⟨401, "Unauthorized"⟩) :=
  set_command_unauthorized "minha-chave-teste" 0 ⟨[], [⟨"pc-1", "start", 1⟩], 1⟩
    "pc-1" "stop" (some "Bearer wrong")
    (Or.inr ⟨"Bearer wrong", rfl, by decide⟩)

/-- Claim C4: an authenticated command write whose command value is
outside `{"start", "stop"}` fails with 400 Invalid command and leaves the
database state unchanged. -/
theorem set_command_invalid_command (api_key : String) (now : Int) (db : DB)
    (client_id command : String) (authorization : Option String)
    (hauth : authorized api_key authorization = true)
    (h1 : command ≠ "start") (h2 : command ≠ "stop") :
    set_command api_key now db client_id command authorization =
      (db, .error ⟨400, "Invalid command"⟩) := by
  simp [set_command, hauth, h1, h2]

theorem set_command_invalid_command_witness :
    set_command "k" 0 ⟨[], [⟨"pc-1", "start", 1⟩], 1⟩ "pc-1" "restart"
        (some "Bearer k") =
      (⟨[], [⟨"pc-1", "start", 1⟩], 1⟩, .error ⟨400, "Invalid command"⟩) :=
  set_command_invalid_command "k" 0 ⟨[], [⟨"pc-1", "start", 1⟩], 1⟩ "pc-1"
    "restart" (some "Bearer k") (by decide) (by decide) (by decide)

/-- Claim C8: every reachable state has at most one `comandos` row per
`client_id` (the writes are upserts), and two sequential authenticated
writes of `"start"` then `"stop"` for the same client leave exactly one
row for that client, holding `"stop"`. -/
theorem command_row_unique (api_key : String) :
    (∀ db : DB, Reachable api_key db → DistinctClients db.comandos) ∧
    (∀ (now1 now2 : Int) (db : DB) (client_id : String) (a1 a2 : Option String),
      Reachable api_key db →
      authorized api_key a1 = true → authorized api_key a2 = true →
      (set_command api_key now2
          (set_command api_key now1 db client_id "start" a1).1
          client_id "stop" a2).1.comandos.countP
        (fun r => r.client_id == client_id) = 1 ∧
      get_command (set_command api_key now2
          (set_command api_key now1 db client_id "start" a1).1
          client_id "stop" a2).1 client_id = ⟨"stop", some now2⟩) := by
  have hinv : ∀ db : DB, Reachable api_key db → DistinctClients db.comandos := by
    intro db hdb
    induction hdb with
    | init => exact List.Pairwise.nil
    | step_collect parse now db p a hdb ih => exact ih
    | step_set now db cid cmd a hdb ih =>
      rcases set_command_state api_key now db cid cmd a with h | h
      · rw [h]
        exact ih
      · rw [h]
        exact distinct_upsertList _ ih
  refine ⟨hinv, ?_⟩
  intro now1 now2 db cid a1 a2 hdb h1 h2
  have hd : DistinctClients db.comandos := hinv db hdb
  have hs1 : (set_command api_key now1 db cid "start" a1).1 =
      { db with comandos := upsertList db.comandos ⟨cid, "start", now1⟩ } := by
    simp [set_command, h1]
  have hs2 : (set_command api_key now2
      { db with comandos := upsertList db.comandos ⟨cid, "start", now1⟩ }
      cid "stop" a2).1 =
      { db with comandos := upsertList (upsertList db.comandos ⟨cid, "start", now1⟩) ⟨cid, "stop", now2⟩ } := by
    simp [set_command, h2]
  rw [hs1, hs2]
  have hd1 : DistinctClients (upsertList db.comandos ⟨cid, "start", now1⟩) :=
    distinct_upsertList _ hd
  constructor
  · exact countP_upsertList _ ⟨cid, "stop", now2⟩ hd1
  · rw [get_command]
    have hfind := find?_upsertList
      (upsertList db.comandos ⟨cid, "start", now1⟩) ⟨cid, "stop", now2⟩
    simp only at hfind
    rw [hfind]

theorem command_row_unique_witness :
    (set_command "k" 1 (set_command "k" 0 DB.empty "pc-1" "start" (some "k")).1
        "pc-1" "stop" (some "k")).1.comandos.countP
      (fun r => r.client_id == "pc-1") = 1 ∧
    get_command (set_command "k" 1
        (set_command "k" 0 DB.empty "pc-1" "start" (some "k")).1
        "pc-1" "stop" (some "k")).1 "pc-1" = ⟨"stop", some 1⟩ :=
  (command_row_unique "k").2 0 1 DB.empty "pc-1" (some "k") (some "k")
    Reachable.init (by decide) (by decide)

/-- Claim C1: the metrics query returns at most `limit` rows, sorted
ascending by timestamp, all drawn from the store for the requested
client; a client with no samples yields the empty list; and ingesting
three samples with timestamps `t1 < t2 < t3` into a fresh store then
querying with `limit = 2` returns exactly the `t2` and `t3` rows in that
order. -/
theorem metrics_query_spec (db : DB) (client_id : String) (limit : Nat) :
    (metrics db client_id limit).length ≤ limit ∧
    List.Sorted (fun a b : MetricRow => a.ts ≤ b.ts) (metrics db client_id limit) ∧
    (∀ r ∈ metrics db client_id limit, r ∈ db.metricas ∧ r.client_id = client_id) ∧
    (db.metricas.filter (fun r => r.client_id == client_id) = [] →
      metrics db client_id limit = []) ∧
    (∀ (parse : String → Option Int) (now1 now2 now3 t1 t2 t3 : Int)
        (p1 p2 p3 : Payload) (a1 a2 a3 : Option String),
      p1.client_id = client_id → p2.client_id = client_id →
      p3.client_id = client_id →
      (parse p1.timestamp).getD now1 = t1 →
      (parse p2.timestamp).getD now2 = t2 →
      (parse p3.timestamp).getD now3 = t3 →
      t1 < t2 → t2 < t3 →
      metrics (collect parse now3 (collect parse now2
          (collect parse now1 DB.empty p1 a1).1 p2 a2).1 p3 a3).1 client_id 2 =
        [⟨2, client_id, t2, p2.cpu, p2.ram⟩,
         ⟨3, client_id, t3, p3.cpu, p3.ram⟩]) := by
  refine ⟨?_, ?_, ?_, ?_, ?_⟩
  · rw [metrics, List.length_reverse]
    exact List.length_take_le _ _
  · rw [metrics]
    have hs : List.Sorted tsDescRel (List.insertionSort tsDescRel
        (db.metricas.filter (fun r => r.client_id == client_id))) :=
      List.sorted_insertionSort tsDescRel _
    have ht : List.Pairwise tsDescRel ((List.insertionSort tsDescRel
        (db.metricas.filter (fun r => r.client_id == client_id))).take limit) :=
      List.Pairwise.sublist (List.take_sublist _ _) hs
    exact List.pairwise_reverse.mpr ht
  · intro r hr
    rw [metrics, List.mem_reverse] at hr
    have h1 : r ∈ List.insertionSort tsDescRel
        (db.metricas.filter (fun s => s.client_id == client_id)) :=
      (List.take_sublist _ _).subset hr
    have h2 : r ∈ db.metricas.filter (fun s => s.client_id == client_id) :=
      (List.mem_insertionSort tsDescRel).mp h1
    rw [List.mem_filter] at h2
    exact ⟨h2.1, by simpa using h2.2⟩
  · intro h
    rw [metrics, h]
    simp
  · intro parse now1 now2 now3 t1 t2 t3 p1 p2 p3 a1 a2 a3 hc1 hc2 hc3
      hp1 hp2 hp3 h12 h23
    have hm : (collect parse now3 (collect parse now2
        (collect parse now1 DB.empty p1 a1).1 p2 a2).1 p3 a3).1.metricas =
        [⟨1, client_id, t1, p1.cpu, p1.ram⟩, ⟨2, client_id, t2, p2.cpu, p2.ram⟩,
         ⟨3, client_id, t3, p3.cpu, p3.ram⟩] := by
      simp [collect, DB.empty, hc1, hc2, hc3, hp1, hp2, hp3]
    rw [metrics, hm]
    have hfil : List.filter (fun r => r.client_id == client_id)
        [⟨1, client_id, t1, p1.cpu, p1.ram⟩, ⟨2, client_id, t2, p2.cpu, p2.ram⟩,
         ⟨3, client_id, t3, p3.cpu, p3.ram⟩] =
        [(⟨1, client_id, t1, p1.cpu, p1.ram⟩ : MetricRow),
         ⟨2, client_id, t2, p2.cpu, p2.ram⟩,
         ⟨3, client_id, t3, p3.cpu, p3.ram⟩] := by
      simp [List.filter]
    rw [hfil]
    have e1 : ¬ tsDescRel ⟨2, client_id, t2, p2.cpu, p2.ram⟩
        ⟨3, client_id, t3, p3.cpu, p3.ram⟩ := not_le.mpr h23
    have e2 : ¬ tsDescRel ⟨1, client_id, t1, p1.cpu, p1.ram⟩
        ⟨3, client_id, t3, p3.cpu, p3.ram⟩ := not_le.mpr (h12.trans h23)
    have e3 : ¬ tsDescRel ⟨1, client_id, t1, p1.cpu, p1.ram⟩
        ⟨2, client_id, t2, p2.cpu, p2.ram⟩ := not_le.mpr h12
    have hins : List.insertionSort tsDescRel
        [⟨1, client_id, t1, p1.cpu, p1.ram⟩, ⟨2, client_id, t2, p2.cpu, p2.ram⟩,
         ⟨3, client_id, t3, p3.cpu, p3.ram⟩] =
        [(⟨3, client_id, t3, p3.cpu, p3.ram⟩ : MetricRow),
         ⟨2, client_id, t2, p2.cpu, p2.ram⟩,
         ⟨1, client_id, t1, p1.cpu, p1.ram⟩] := by
      simp [List.insertionSort, List.orderedInsert, e1, e2, e3]
    rw [hins]
    rfl

theorem metrics_query_spec_witness :
    metrics (collect (fun _ => none) 30 (collect (fun _ => none) 20
        (collect (fun _ => none) 10 DB.empty ⟨"pc-1", "x", 1, 2⟩ none).1
        ⟨"pc-1", "y", 3, 4⟩ none).1 ⟨"pc-1", "z", 5, 6⟩ none).1 "pc-1" 2 =
      [⟨2, "pc-1", 20, 3, 4⟩, ⟨3, "pc-1", 30, 5, 6⟩] :=
  (metrics_query_spec DB.empty "pc-1" 2).2.2.2.2 (fun _ => none) 10 20 30
    10 20 30 ⟨"pc-1", "x", 1, 2⟩ ⟨"pc-1", "y", 3, 4⟩ ⟨"pc-1", "z", 5, 6⟩
    none none none rfl rfl rfl rfl rfl rfl (by decide) (by decide)

end MonitorServer
